import Mathlib

/-!
# Verification of the Internal-Pioneer analytics/forecasting engine

Shallow embedding of the analytics, retention, forecast and CSV code of the
repository (frontend `app.js` and the server script).  JavaScript numbers are
idealised as exact rationals (`ℚ`); `Math.sqrt` is modelled by `Real.sqrt`,
so the quantities derived from a standard deviation live in `ℝ`.
JavaScript strings handled character by character (the CSV layer) are
modelled as `List Char`; elsewhere plain `String` suffices.
-/

namespace Pioneer

/-- A transaction record as used by the analytics/aggregation code
(`grower_name` is the natural key; dates appear only as opaque strings in the
claims treated here). -/
structure Transaction where
  date : String
  invoice_number : String
  grower_name : String
  product : String
  quantity : ℚ
  amount : ℚ
  deriving Repr, DecidableEq

/-! ## Retention analyzer (`updateGrowerStats` in `app.js`, and the
`/api/growers/retention/analysis` handler)

`new Set(currentYearData.map(d => d.grower_name))` becomes the `Finset` of
grower names; the `filter(...).length` counts become `Finset.filter` cards. -/

/-- Models `new Set(data.map(d => d.grower_name))`. -/
def growerSet (data : List Transaction) : Finset String :=
  (data.map (fun d => d.grower_name)).toFinset

/-- Models `[...currentGrowers].filter(g => !previousGrowers.has(g)).length`. -/
def newGrowersCount (cur prev : List Transaction) : ℕ :=
  ((growerSet cur).filter (fun g => g ∉ growerSet prev)).card

/-- Models `[...currentGrowers].filter(g => previousGrowers.has(g)).length`. -/
def returningGrowersCount (cur prev : List Transaction) : ℕ :=
  ((growerSet cur).filter (fun g => g ∈ growerSet prev)).card

/-- Models `[...previousGrowers].filter(g => !currentGrowers.has(g)).length`. -/
def lostGrowersCount (cur prev : List Transaction) : ℕ :=
  ((growerSet prev).filter (fun g => g ∉ growerSet cur)).card

/-- Models `previousGrowers.size ? (returningGrowers / previousGrowers.size * 100) : 0`. -/
def retentionRate (cur prev : List Transaction) : ℚ :=
  if (growerSet prev).card ≠ 0 then
    (returningGrowersCount cur prev : ℚ) / ((growerSet prev).card : ℚ) * 100
  else 0

/-! ## Aggregation engine (`calculateSummary` and the by-grower rollup in the
server script) -/

/-- The summary record returned by `calculateSummary`. -/
structure Summary where
  totalRevenue : ℚ
  totalOrders : ℕ
  uniqueGrowers : ℕ
  totalUnits : ℚ
  avgOrderValue : ℚ
  deriving Repr, DecidableEq

/-- Models `calculateSummary(data)` from the server script. -/
def calculateSummary (data : List Transaction) : Summary :=
  let totalRevenue := (data.map (fun d => d.amount)).sum
  let totalOrders := data.length
  let uniqueGrowers := (growerSet data).card
  let totalUnits := (data.map (fun d => d.quantity)).sum
  { totalRevenue := totalRevenue
    totalOrders := totalOrders
    uniqueGrowers := uniqueGrowers
    totalUnits := totalUnits
    avgOrderValue := if totalOrders ≠ 0 then totalRevenue / (totalOrders : ℚ) else 0 }

/-- One step of the by-grower rollup: `byGrower[d.grower_name]` is created with
revenue `0` on first sight and then `grower.revenue += d.amount`.  The map is
modelled as an association list keyed by grower name (only the revenue field
of the grower record is needed by the claims treated here). -/
def upsertRevenue (acc : List (String × ℚ)) (name : String) (amt : ℚ) :
    List (String × ℚ) :=
  match acc with
  | [] => [(name, amt)]
  | (n, r) :: t =>
      if n = name then (n, r + amt) :: t else (n, r) :: upsertRevenue t name amt

/-- The `data.forEach(d => ...)` loop of the `/api/analytics/by-grower`
handler, restricted to the revenue accumulation. -/
def byGrowerRevenue (data : List Transaction) : List (String × ℚ) :=
  data.foldl (fun acc d => upsertRevenue acc d.grower_name d.amount) []

/-! ## Lemmas for the retention and aggregation claims -/

theorem upsertRevenue_sum (acc : List (String × ℚ)) (name : String) (amt : ℚ) :
    ((upsertRevenue acc name amt).map Prod.snd).sum =
      ((acc.map Prod.snd).sum) + amt := by
  induction acc with
  | nil => simp [upsertRevenue]
  | cons hd tl ih =>
      obtain ⟨n, r⟩ := hd
      by_cases h : n = name
      · simp [upsertRevenue, h]
        ring
      · simp [upsertRevenue, h, ih]
        ring

theorem byGrowerRevenue_general (data : List Transaction)
    (acc : List (String × ℚ)) :
    (((data.foldl (fun acc d => upsertRevenue acc d.grower_name d.amount) acc)).map
        Prod.snd).sum =
      (acc.map Prod.snd).sum + (data.map (fun d => d.amount)).sum := by
  induction data generalizing acc with
  | nil => simp
  | cons d tl ih =>
      simp only [List.foldl_cons, List.map_cons, List.sum_cons]
      rw [ih, upsertRevenue_sum]
      ring

/-- C2 — retention partition cardinalities. -/
theorem retention_partition (cur prev : List Transaction) :
    newGrowersCount cur prev + returningGrowersCount cur prev
        = (growerSet cur).card ∧
    lostGrowersCount cur prev + returningGrowersCount cur prev
        = (growerSet prev).card := by
  constructor
  · have h := Finset.filter_card_add_filter_neg_card_eq_card
      (s := growerSet cur) (p := fun g => g ∈ growerSet prev)
    simpa [newGrowersCount, returningGrowersCount, Nat.add_comm] using h
  · have h := Finset.filter_card_add_filter_neg_card_eq_card
      (s := growerSet prev) (p := fun g => g ∈ growerSet cur)
    have hret : returningGrowersCount cur prev
        = ((growerSet prev).filter (fun g => g ∈ growerSet cur)).card := by
      simp only [returningGrowersCount, Finset.filter_mem_eq_inter]
      rw [Finset.inter_comm]
    simpa [lostGrowersCount, hret, Nat.add_comm] using h

theorem returningGrowersCount_eq_inter (cur prev : List Transaction) :
    returningGrowersCount cur prev = ((growerSet cur) ∩ (growerSet prev)).card := by
  simp [returningGrowersCount, Finset.filter_mem_eq_inter]

/-- C7 — retention rate: equals `|returning| / |previous| * 100`, lies in
`[0, 100]`, and is `0` when the previous year has no growers. -/
theorem retention_rate_spec (cur prev : List Transaction) :
    (growerSet prev ≠ ∅ →
      retentionRate cur prev =
        (((growerSet cur) ∩ (growerSet prev)).card : ℚ) /
          ((growerSet prev).card : ℚ) * 100)
    ∧ 0 ≤ retentionRate cur prev
    ∧ retentionRate cur prev ≤ 100
    ∧ (growerSet prev = ∅ → retentionRate cur prev = 0) := by
  have hret := returningGrowersCount_eq_inter cur prev
  by_cases hp : (growerSet prev).card = 0
  · have hempty : growerSet prev = ∅ := Finset.card_eq_zero.mp hp
    refine ⟨fun h => absurd hempty h, ?_, ?_, fun _ => ?_⟩ <;>
      simp [retentionRate, hp]
  · have hpos : 0 < ((growerSet prev).card : ℚ) := by
      exact_mod_cast Nat.pos_of_ne_zero hp
    have hle : ((growerSet cur ∩ growerSet prev).card : ℚ)
        ≤ ((growerSet prev).card : ℚ) := by
      exact_mod_cast Finset.card_le_card (Finset.inter_subset_right)
    have hrate : retentionRate cur prev =
        ((growerSet cur ∩ growerSet prev).card : ℚ) /
          ((growerSet prev).card : ℚ) * 100 := by
      simp [retentionRate, hp, hret]
    refine ⟨fun _ => hrate, ?_, ?_, fun hempty => ?_⟩
    · rw [hrate]; positivity
    · rw [hrate]
      have hdiv : ((growerSet cur ∩ growerSet prev).card : ℚ) /
          ((growerSet prev).card : ℚ) ≤ 1 := (div_le_one hpos).mpr hle
      nlinarith
    · exact absurd (by simp [hempty]) hp

/-- Witness for C7 at the spec scenario: current growers `{A,B,C}`, previous
growers `{A,B,D}` give a retention rate of `200/3 ≈ 66.7%`. -/
theorem retention_rate_spec_witness :
    retentionRate
        [⟨"2024-01-05", "1", "A", "Corn Seed", 1, 100⟩,
         ⟨"2024-02-05", "2", "B", "Soybean Seed", 1, 100⟩,
         ⟨"2024-03-05", "3", "C", "Herbicide", 1, 100⟩]
        [⟨"2023-01-05", "4", "A", "Corn Seed", 1, 100⟩,
         ⟨"2023-02-05", "5", "B", "Soybean Seed", 1, 100⟩,
         ⟨"2023-03-05", "6", "D", "Fertilizer", 1, 100⟩] = 200 / 3 := by
  have h := (retention_rate_spec
      [⟨"2024-01-05", "1", "A", "Corn Seed", 1, 100⟩,
       ⟨"2024-02-05", "2", "B", "Soybean Seed", 1, 100⟩,
       ⟨"2024-03-05", "3", "C", "Herbicide", 1, 100⟩]
      [⟨"2023-01-05", "4", "A", "Corn Seed", 1, 100⟩,
       ⟨"2023-02-05", "5", "B", "Soybean Seed", 1, 100⟩,
       ⟨"2023-03-05", "6", "D", "Fertilizer", 1, 100⟩]).1 (by decide)
  rw [h]
  norm_num [show ((growerSet
      [⟨"2024-01-05", "1", "A", "Corn Seed", 1, 100⟩,
       ⟨"2024-02-05", "2", "B", "Soybean Seed", 1, 100⟩,
       ⟨"2024-03-05", "3", "C", "Herbicide", 1, 100⟩]) ∩ (growerSet
      [⟨"2023-01-05", "4", "A", "Corn Seed", 1, 100⟩,
       ⟨"2023-02-05", "5", "B", "Soybean Seed", 1, 100⟩,
       ⟨"2023-03-05", "6", "D", "Fertilizer", 1, 100⟩])).card = 2 from by decide,
    show ((growerSet
      [⟨"2023-01-05", "4", "A", "Corn Seed", 1, 100⟩,
       ⟨"2023-02-05", "5", "B", "Soybean Seed", 1, 100⟩,
       ⟨"2023-03-05", "6", "D", "Fertilizer", 1, 100⟩]).card) = 3 from by decide]

/-- C3 — per-grower revenues partition the total revenue exactly. -/
theorem byGrower_partitions_total (data : List Transaction)
    (hnn : ∀ t ∈ data, 0 ≤ t.amount) :
    ((byGrowerRevenue data).map Prod.snd).sum
      = (calculateSummary data).totalRevenue := by
  have h := byGrowerRevenue_general data []
  simpa [byGrowerRevenue, calculateSummary] using h

/-- Witness for C3 on a concrete three-transaction set with a repeated
grower. -/
theorem byGrower_partitions_total_witness :
    ((byGrowerRevenue
        [⟨"2024-01-05", "1", "A", "Corn Seed", 2, 150⟩,
         ⟨"2024-02-05", "2", "B", "Soybean Seed", 1, 50⟩,
         ⟨"2024-03-05", "3", "A", "Herbicide", 3, 100⟩]).map Prod.snd).sum
      = (calculateSummary
        [⟨"2024-01-05", "1", "A", "Corn Seed", 2, 150⟩,
         ⟨"2024-02-05", "2", "B", "Soybean Seed", 1, 50⟩,
         ⟨"2024-03-05", "3", "A", "Herbicide", 3, 100⟩]).totalRevenue :=
  byGrower_partitions_total
    [⟨"2024-01-05", "1", "A", "Corn Seed", 2, 150⟩,
     ⟨"2024-02-05", "2", "B", "Soybean Seed", 1, 50⟩,
     ⟨"2024-03-05", "3", "A", "Herbicide", 3, 100⟩] (by decide)

/-! ## Forecast engine (`linearRegression`, `growthRateForecast`,
`weightedAverageForecast` in `app.js`)

`linearRegression` is written with the slope/intercept of the source pulled
out as named definitions so theorems can speak about the fitted slope. -/

/-- Models `n * sumX2 - sumX * sumX`, the slope denominator of `linearRegression`. -/
def lrDenom (x : List ℚ) : ℚ :=
  (x.length : ℚ) * (x.map fun a => a * a).sum - x.sum * x.sum

/-- Models `slope = (n * sumXY - sumX * sumY) / (n * sumX2 - sumX * sumX)`. -/
def lrSlope (x y : List ℚ) : ℚ :=
  ((x.length : ℚ) * ((x.zip y).map fun p => p.1 * p.2).sum - x.sum * y.sum) /
    lrDenom x

/-- Models `intercept = (sumY - slope * sumX) / n`. -/
def lrIntercept (x y : List ℚ) : ℚ :=
  (y.sum - lrSlope x y * x.sum) / (x.length : ℚ)

/-- Models `linearRegression(x, y, targetX)` from `app.js`: least-squares line
evaluated at `targetX`, `0` on an empty series. -/
def linearRegression (x y : List ℚ) (targetX : ℚ) : ℚ :=
  if x.length = 0 then 0
  else lrSlope x y * targetX + lrIntercept x y

/-- Models `growthRateForecast(data)` from `app.js`.  The `for` loop over
`i = 1 .. length-1` is rendered as a `filterMap` over `List.range`, reading
`data[i-1]`/`data[i]` through `getD` (shifted to `i`/`i+1`). -/
def growthRateForecast (data : List ℚ) : ℚ :=
  if data.length < 2 then data.getLast?.getD 0
  else
    let growthRates := (List.range (data.length - 1)).filterMap fun i =>
      if 0 < data.getD i 0 then
        some ((data.getD (i + 1) 0 - data.getD i 0) / data.getD i 0)
      else none
    let avgGrowth :=
      if growthRates.length ≠ 0 then growthRates.sum / (growthRates.length : ℚ)
      else 0
    data.getLast?.getD 0 * (1 + avgGrowth)

/-- Models `weightedAverageForecast(data)` from `app.js`: linearly weighted average,
then a fixed ±5% momentum nudge. -/
def weightedAverageForecast (data : List ℚ) : ℚ :=
  if data.length = 0 then 0
  else
    let weights := (List.range data.length).map fun i => ((i + 1 : ℕ) : ℚ)
    let totalWeight := weights.sum
    let weighted := ((data.zip weights).map fun p => p.1 * p.2).sum
    let weightedAvg := weighted / totalWeight
    let lastValue := data.getLast?.getD 0
    let avgValue := data.sum / (data.length : ℚ)
    let trend : ℚ := if avgValue < lastValue then 1.05 else 0.95
    weightedAvg * trend

/-! ### Least-squares: sum bookkeeping and the normal equations -/

theorem residual_sum_eq (x y : List ℚ) (s b : ℚ) (h : x.length = y.length) :
    ((x.zip y).map fun p => p.2 - (s * p.1 + b)).sum
      = y.sum - s * x.sum - (x.length : ℚ) * b := by
  induction x generalizing y with
  | nil =>
      cases y with
      | nil => simp
      | cons c u => simp at h
  | cons a t ih =>
      cases y with
      | nil => simp at h
      | cons c u =>
          have h' : t.length = u.length := by simpa using h
          simp only [List.zip_cons_cons, List.map_cons, List.sum_cons,
            List.length_cons, ih u h']
          push_cast
          ring

theorem weighted_residual_sum_eq (x y : List ℚ) (s b : ℚ)
    (h : x.length = y.length) :
    ((x.zip y).map fun p => p.1 * (p.2 - (s * p.1 + b))).sum
      = ((x.zip y).map fun p => p.1 * p.2).sum
          - s * (x.map fun a => a * a).sum - b * x.sum := by
  induction x generalizing y with
  | nil =>
      cases y with
      | nil => simp
      | cons c u => simp at h
  | cons a t ih =>
      cases y with
      | nil => simp at h
      | cons c u =>
          have h' : t.length = u.length := by simpa using h
          simp only [List.zip_cons_cons, List.map_cons, List.sum_cons, ih u h']
          ring

theorem lrDenom_ne_zero_length (x : List ℚ) (hden : lrDenom x ≠ 0) :
    (x.length : ℚ) ≠ 0 := by
  intro h
  apply hden
  have hx : x = [] := List.length_eq_zero.mp (by exact_mod_cast h)
  simp [lrDenom, hx]

/-- C6 (amended) — `linearRegression` is the least-squares fit projected at
the target year: when the slope denominator is non-zero the fitted line
satisfies both normal equations (zero residual sum and zero `x`-weighted
residual sum); an empty series yields `0`; and on the spec scenario the slope
is exactly `25000` and the projection at 2027 is exactly `223000`. -/
theorem linearRegression_spec :
    (∀ x y : List ℚ, x.length = y.length → lrDenom x ≠ 0 →
      ((x.zip y).map fun p =>
          p.2 - (lrSlope x y * p.1 + lrIntercept x y)).sum = 0 ∧
      ((x.zip y).map fun p =>
          p.1 * (p.2 - (lrSlope x y * p.1 + lrIntercept x y))).sum = 0)
    ∧ (∀ t : ℚ, linearRegression [] [] t = 0)
    ∧ lrSlope [2022, 2023, 2024, 2025, 2026]
        [100000, 120000, 150000, 170000, 200000] = 25000
    ∧ linearRegression [2022, 2023, 2024, 2025, 2026]
        [100000, 120000, 150000, 170000, 200000] 2027 = 223000 := by
  refine ⟨?_, ?_,
    by norm_num [lrSlope, lrDenom, List.zip, List.zipWith],
    by norm_num [linearRegression, lrSlope, lrIntercept, lrDenom,
      List.zip, List.zipWith]⟩
  · intro x y hlen hden
    have hn : (x.length : ℚ) ≠ 0 := lrDenom_ne_zero_length x hden
    have hden' : (x.length : ℚ) * (x.map fun a => a * a).sum - x.sum * x.sum
        ≠ 0 := by simpa [lrDenom] using hden
    constructor
    · rw [residual_sum_eq x y _ _ hlen]
      simp only [lrIntercept]
      field_simp
    · rw [weighted_residual_sum_eq x y _ _ hlen]
      simp only [lrIntercept, lrSlope, lrDenom]
      field_simp
      ring
  · intro t
    simp [linearRegression]

/-- Witness for C6 on the two-point series `x = [1,2]`, `y = [1,3]`
(denominator `1`), where both normal equations hold. -/
theorem linearRegression_spec_witness :
    ((([1, 2] : List ℚ).zip [1, 3]).map fun p =>
        p.2 - (lrSlope [1, 2] [1, 3] * p.1 + lrIntercept [1, 2] [1, 3])).sum = 0
    ∧ ((([1, 2] : List ℚ).zip [1, 3]).map fun p =>
        p.1 * (p.2 - (lrSlope [1, 2] [1, 3] * p.1
          + lrIntercept [1, 2] [1, 3]))).sum = 0 :=
  linearRegression_spec.1 [1, 2] [1, 3] rfl (by norm_num [lrDenom])

/-- C6 counterexample — the scenario projection is exactly `223000`, which is
`2000` away from the claimed `≈ 225000`, beyond any rounding tolerance. -/
theorem linearRegression_scenario_projection :
    linearRegression [2022, 2023, 2024, 2025, 2026]
        [100000, 120000, 150000, 170000, 200000] 2027 = 223000
    ∧ (1000 : ℚ) ≤ |225000 - linearRegression [2022, 2023, 2024, 2025, 2026]
        [100000, 120000, 150000, 170000, 200000] 2027| := by
  have hval : linearRegression [2022, 2023, 2024, 2025, 2026]
      [100000, 120000, 150000, 170000, 200000] 2027 = 223000 := by
    norm_num [linearRegression, lrSlope, lrIntercept, lrDenom,
      List.zip, List.zipWith]
  rw [hval]
  norm_num

/-! ### Growth-rate and weighted-average forecasts -/

/-- The index-based transition loop of `growthRateForecast` visits exactly the
consecutive pairs of the series. -/
theorem range_pairs_filterMap (g : ℚ → ℚ → Option ℚ) :
    ∀ l : List ℚ,
    (List.range (l.length - 1)).filterMap
        (fun i => g (l.getD i 0) (l.getD (i + 1) 0))
      = (l.zip l.tail).filterMap fun p => g p.1 p.2
  | [] => by simp
  | [a] => by simp
  | a :: b :: u => by
      have ih := range_pairs_filterMap g (b :: u)
      have hlen : (a :: b :: u : List ℚ).length - 1 = u.length + 1 := by simp
      rw [hlen, List.range_succ_eq_map, List.filterMap_cons, List.filterMap_map]
      have hfun : ((fun i => g ((a :: b :: u : List ℚ).getD i 0)
            ((a :: b :: u : List ℚ).getD (i + 1) 0)) ∘ (fun i => i + 1))
          = fun i => g ((b :: u : List ℚ).getD i 0)
              ((b :: u : List ℚ).getD (i + 1) 0) := by
        funext i
        simp [List.getD_cons_succ]
      have hlen2 : (b :: u : List ℚ).length - 1 = u.length := by simp
      rw [hfun]
      rw [hlen2] at ih
      simp only [List.getD_cons_zero, List.getD_cons_succ] at *
      rw [ih]
      cases hg : g a b <;> simp [List.filterMap_cons, hg]

/-- C5 — the growth-rate forecast is the last value times one plus the mean
year-over-year relative change over transitions with a strictly positive
prior value (an empty transition set contributing a zero mean), and a
single-point series is returned unchanged. -/
theorem growthRateForecast_spec :
    (∀ l : List ℚ, 2 ≤ l.length →
      growthRateForecast l =
        l.getLast?.getD 0 *
          (1 + (((l.zip l.tail).filterMap fun p =>
              if 0 < p.1 then some ((p.2 - p.1) / p.1) else none).sum /
            (((l.zip l.tail).filterMap fun p =>
              if 0 < p.1 then some ((p.2 - p.1) / p.1) else none).length : ℚ))))
    ∧ ∀ v : ℚ, growthRateForecast [v] = v := by
  constructor
  · intro l hl
    have hnotlt : ¬ l.length < 2 := by omega
    have hrw := range_pairs_filterMap
      (fun p c => if 0 < p then some ((c - p) / p) else none) l
    rw [growthRateForecast]
    simp only [hnotlt, if_false, hrw]
    by_cases hz : ((l.zip l.tail).filterMap fun p =>
        if 0 < p.1 then some ((p.2 - p.1) / p.1) else none).length = 0
    · have hnil : ((l.zip l.tail).filterMap fun p =>
          if 0 < p.1 then some ((p.2 - p.1) / p.1) else none) = [] :=
        List.length_eq_zero.mp hz
      simp [hz, hnil]
    · simp [hz]
  · intro v
    simp [growthRateForecast]

/-- Witness for C5: on `[1, 2]` the single transition has rate `1`, so the
forecast is `2 * (1 + 1) = 4`. -/
theorem growthRateForecast_spec_witness :
    growthRateForecast [1, 2] = 4 := by
  have h := growthRateForecast_spec.1 [1, 2] (by norm_num)
  rw [h]
  norm_num [List.zip, List.zipWith, List.filterMap_cons]

/-- C10 — on a one-point series the weighted-average forecast applies the
`0.95` multiplier (the strict `last > mean` comparison fails), so it returns
`0.95 * v`, not `v`. -/
theorem weightedAverageForecast_single (v : ℚ) :
    weightedAverageForecast [v] = 0.95 * v
    ∧ (v ≠ 0 → weightedAverageForecast [v] ≠ v) := by
  have hval : weightedAverageForecast [v] = 0.95 * v := by
    rw [weightedAverageForecast]
    norm_num [List.range, List.range.loop, List.zip, List.zipWith]
    ring
  refine ⟨hval, fun hv heq => hv ?_⟩
  rw [hval] at heq
  linarith

/-- Witness for C10 at `v = 100`: the forecast is `95`, not `100`. -/
theorem weightedAverageForecast_single_witness :
    weightedAverageForecast [100] = 95
    ∧ weightedAverageForecast [100] ≠ 100 := by
  have h := weightedAverageForecast_single 100
  refine ⟨by rw [h.1]; norm_num, h.2 (by norm_num)⟩

/-! ## Confidence band (`calculateForecast`, `standardDeviation`, `getZScore`
in `app.js`)

`Math.sqrt` is modelled by `Real.sqrt`, so the band values live in `ℝ`. -/

/-- The mean-squared deviation inside `standardDeviation` (population
variance: `squaredDiffs.sum / data.length`). -/
def populationVariance (data : List ℚ) : ℚ :=
  if data.length = 0 then 0
  else
    let mean := data.sum / (data.length : ℚ)
    ((data.map fun v => (v - mean) ^ 2).sum) / (data.length : ℚ)

/-- Models `standardDeviation(data)` from `app.js`. -/
noncomputable def standardDeviation (data : List ℚ) : ℝ :=
  if data.length = 0 then 0 else Real.sqrt (populationVariance data)

/-- Models `getZScore(confidence)` from `app.js`: the three-entry lookup with the
`|| 1.645` fallback. -/
def getZScore (confidence : ℚ) : ℚ :=
  if confidence = 0.80 then 1.28
  else if confidence = 0.90 then 1.645
  else if confidence = 0.95 then 1.96
  else 1.645

/-- One point of the yearly series fed to `calculateForecast`. -/
structure YearPoint where
  year : ℚ
  revenue : ℚ
  growers : ℚ
  deriving Repr, DecidableEq

/-- The `switch (method)` of `calculateForecast` applied to the revenue
series (the `default` arm repeats the `linear` case; the target year is the
hard-coded 2027). -/
def rawForecastRevenue (data : List YearPoint) (method : String) : ℚ :=
  let revenues := data.map fun d => d.revenue
  let years := data.map fun d => d.year
  if method = "linear" then linearRegression years revenues 2027
  else if method = "growth" then growthRateForecast revenues
  else if method = "weighted" then weightedAverageForecast revenues
  else linearRegression years revenues 2027

/-- The `switch (method)` of `calculateForecast` applied to the grower-count
series. -/
def rawForecastGrowers (data : List YearPoint) (method : String) : ℚ :=
  let growers := data.map fun d => d.growers
  let years := data.map fun d => d.year
  if method = "linear" then linearRegression years growers 2027
  else if method = "growth" then growthRateForecast growers
  else if method = "weighted" then weightedAverageForecast growers
  else linearRegression years growers 2027

/-- Models `Math.round`: round half towards positive infinity. -/
noncomputable def jsRound (x : ℝ) : ℤ := ⌊x + 1 / 2⌋

/-- The record returned by `calculateForecast`. -/
structure Forecast where
  revenue : ℝ
  revenueLow : ℝ
  revenueHigh : ℝ
  growers : ℤ
  growersLow : ℤ
  growersHigh : ℤ

/-- Models `calculateForecast(data, method, confidence)` from `app.js`. -/
noncomputable def calculateForecast (data : List YearPoint) (method : String)
    (confidence : ℚ) : Forecast :=
  let forecastRevenue := rawForecastRevenue data method
  let forecastGrowers := rawForecastGrowers data method
  let revenueStdDev := standardDeviation (data.map fun d => d.revenue)
  let zScore : ℝ := ((getZScore confidence : ℚ) : ℝ)
  let marginOfError := revenueStdDev * zScore
  let growerStdDev := standardDeviation (data.map fun d => d.growers)
  let growerMargin := growerStdDev * zScore
  { revenue := max 0 ((forecastRevenue : ℚ) : ℝ)
    revenueLow := max 0 (((forecastRevenue : ℚ) : ℝ) - marginOfError)
    revenueHigh := ((forecastRevenue : ℚ) : ℝ) + marginOfError
    growers := max 0 (jsRound ((forecastGrowers : ℚ) : ℝ))
    growersLow := max 0 (jsRound (((forecastGrowers : ℚ) : ℝ) - growerMargin))
    growersHigh := jsRound (((forecastGrowers : ℚ) : ℝ) + growerMargin) }

/-! ### Sign lemmas for the band -/

theorem getLastD_nonneg (l : List ℚ) (h : ∀ v ∈ l, 0 ≤ v) :
    0 ≤ l.getLast?.getD 0 := by
  cases hl : l.getLast? with
  | none => simp
  | some a =>
      have hne : l ≠ [] := by
        intro hnil; rw [hnil] at hl; simp at hl
      rw [List.getLast?_eq_getLast_of_ne_nil hne] at hl
      have ha : a ∈ l := by
        injection hl with hv
        exact hv ▸ List.getLast_mem hne
      simpa using h a ha

theorem getD_nonneg (l : List ℚ) (h : ∀ v ∈ l, 0 ≤ v) (i : ℕ) :
    0 ≤ l.getD i 0 := by
  rw [List.getD_eq_getElem?_getD]
  cases hi : l[i]? with
  | none => simp [hi]
  | some a =>
      have ha : a ∈ l := by
        obtain ⟨hlt, hEq⟩ := List.getElem?_eq_some_iff.mp hi
        exact hEq ▸ List.getElem_mem hlt
      simpa [hi] using h a ha

theorem neg_length_le_sum (l : List ℚ) (h : ∀ r ∈ l, (-1 : ℚ) ≤ r) :
    -(l.length : ℚ) ≤ l.sum := by
  induction l with
  | nil => simp
  | cons a t ih =>
      have ha := h a (by simp)
      have ht := ih fun r hr => h r (by simp [hr])
      simp only [List.sum_cons, List.length_cons]
      push_cast
      linarith

/-- On a series of nonnegative values every retained growth rate is at least
`-1`, so the growth-rate forecast is nonnegative. -/
theorem growthRateForecast_nonneg (l : List ℚ) (h : ∀ v ∈ l, 0 ≤ v) :
    0 ≤ growthRateForecast l := by
  by_cases hlen : l.length < 2
  · rw [growthRateForecast, if_pos hlen]
    exact getLastD_nonneg l h
  · rw [growthRateForecast, if_neg hlen]
    have hmem : ∀ r ∈ (List.range (l.length - 1)).filterMap fun i =>
        if 0 < l.getD i 0 then
          some ((l.getD (i + 1) 0 - l.getD i 0) / l.getD i 0)
        else none, (-1 : ℚ) ≤ r := by
      intro r hr
      rw [List.mem_filterMap] at hr
      obtain ⟨i, _, hr⟩ := hr
      by_cases hp : 0 < l.getD i 0
      · rw [if_pos hp] at hr
        injection hr with hv
        rw [← hv, le_div_iff₀ hp]
        have hc := getD_nonneg l h (i + 1)
        linarith
      · rw [if_neg hp] at hr
        exact absurd hr (by simp)
    set rates := (List.range (l.length - 1)).filterMap fun i =>
      if 0 < l.getD i 0 then
        some ((l.getD (i + 1) 0 - l.getD i 0) / l.getD i 0)
      else none with hrates
    have havg : (-1 : ℚ) ≤
        (if rates.length ≠ 0 then rates.sum / (rates.length : ℚ) else 0) := by
      by_cases hz : rates.length = 0
      · simp [hz]
      · rw [if_pos hz]
        have hlenpos : (0 : ℚ) < (rates.length : ℚ) := by
          exact_mod_cast Nat.pos_of_ne_zero hz
        rw [le_div_iff₀ hlenpos]
        have hsum := neg_length_le_sum rates hmem
        linarith
    have hlast := getLastD_nonneg l h
    exact mul_nonneg hlast (by linarith)

/-- On a series of nonnegative values the weighted-average forecast is
nonnegative. -/
theorem weightedAverageForecast_nonneg (l : List ℚ) (h : ∀ v ∈ l, 0 ≤ v) :
    0 ≤ weightedAverageForecast l := by
  rw [weightedAverageForecast]
  by_cases hlen : l.length = 0
  · simp [hlen]
  · rw [if_neg hlen]
    apply mul_nonneg
    · apply div_nonneg
      · apply List.sum_nonneg
        intro x hx
        rw [List.mem_map] at hx
        obtain ⟨p, hp, rfl⟩ := hx
        obtain ⟨h1, h2⟩ := List.of_mem_zip hp
        apply mul_nonneg (h p.1 h1)
        rw [List.mem_map] at h2
        obtain ⟨i, _, hw⟩ := h2
        rw [← hw]
        positivity
      · apply List.sum_nonneg
        intro x hx
        rw [List.mem_map] at hx
        obtain ⟨i, _, rfl⟩ := hx
        positivity
    · split <;> norm_num

theorem standardDeviation_nonneg (l : List ℚ) : 0 ≤ standardDeviation l := by
  rw [standardDeviation]
  split
  · exact le_refl 0
  · exact Real.sqrt_nonneg _

theorem getZScore_pos (c : ℚ) : 0 < getZScore c := by
  rw [getZScore]
  split_ifs <;> norm_num

/-- C1 (amended) — `revenueLow ≤ revenue` holds unconditionally;
`revenue ≤ revenueHigh` holds whenever the un-floored projection is
nonnegative, and in particular for the growth and weighted methods on series
of nonnegative revenues.  (The linear method can project negative — see the
counterexample theorem — which makes the floored `revenue` exceed the
un-floored `revenueHigh`.) -/
theorem forecast_band_ordering (data : List YearPoint) (method : String)
    (confidence : ℚ) :
    (calculateForecast data method confidence).revenueLow
        ≤ (calculateForecast data method confidence).revenue
    ∧ (0 ≤ rawForecastRevenue data method →
        (calculateForecast data method confidence).revenue
          ≤ (calculateForecast data method confidence).revenueHigh)
    ∧ ((∀ p ∈ data, 0 ≤ p.revenue) →
        (method = "growth" ∨ method = "weighted") →
        (calculateForecast data method confidence).revenue
          ≤ (calculateForecast data method confidence).revenueHigh) := by
  have hz : (0 : ℝ) ≤ ((getZScore confidence : ℚ) : ℝ) := by
    exact_mod_cast (getZScore_pos confidence).le
  have hm : (0 : ℝ) ≤ standardDeviation (data.map fun d => d.revenue)
      * ((getZScore confidence : ℚ) : ℝ) :=
    mul_nonneg (standardDeviation_nonneg _) hz
  have hhigh : 0 ≤ rawForecastRevenue data method →
      (calculateForecast data method confidence).revenue
        ≤ (calculateForecast data method confidence).revenueHigh := by
    intro h0
    have h0' : (0 : ℝ) ≤ ((rawForecastRevenue data method : ℚ) : ℝ) := by
      exact_mod_cast h0
    simp only [calculateForecast]
    rw [max_eq_right h0']
    linarith
  refine ⟨?_, hhigh, ?_⟩
  · simp only [calculateForecast]
    exact max_le_max (le_refl 0) (by linarith)
  · intro hnn hmeth
    apply hhigh
    have hrev : ∀ v ∈ data.map fun d => d.revenue, 0 ≤ v := by
      intro v hv
      rw [List.mem_map] at hv
      obtain ⟨p, hp, rfl⟩ := hv
      exact hnn p hp
    rcases hmeth with hg | hw
    · rw [rawForecastRevenue]
      simp only [hg]
      norm_num
      exact growthRateForecast_nonneg _ hrev
    · rw [rawForecastRevenue]
      simp only [hw]
      norm_num
      exact weightedAverageForecast_nonneg _ hrev

/-- Witness for C1 on the growth method over a nonnegative two-point series:
the full band ordering holds. -/
theorem forecast_band_ordering_witness :
    (calculateForecast [⟨2022, 10, 1⟩, ⟨2023, 20, 2⟩] "growth" 0.9).revenueLow
        ≤ (calculateForecast [⟨2022, 10, 1⟩, ⟨2023, 20, 2⟩] "growth" 0.9).revenue
    ∧ (calculateForecast [⟨2022, 10, 1⟩, ⟨2023, 20, 2⟩] "growth" 0.9).revenue
        ≤ (calculateForecast [⟨2022, 10, 1⟩, ⟨2023, 20, 2⟩] "growth"
            0.9).revenueHigh := by
  have h := forecast_band_ordering [⟨2022, 10, 1⟩, ⟨2023, 20, 2⟩] "growth" 0.9
  refine ⟨h.1, h.2.2 ?_ (Or.inl rfl)⟩
  intro p hp
  fin_cases hp <;> norm_num

/-- C1 counterexample — on the nonnegative series
`[(2025, 100), (2026, 0)]` with the linear method at confidence `0.80` the
regression projects `-100`; the floored `revenue` is `0` while the un-floored
`revenueHigh` is `-36`, so `revenue ≤ revenueHigh` fails. -/
theorem forecast_band_counterexample :
    ¬ ((calculateForecast [⟨2025, 100, 0⟩, ⟨2026, 0, 0⟩] "linear" 0.80).revenue
        ≤ (calculateForecast [⟨2025, 100, 0⟩, ⟨2026, 0, 0⟩] "linear"
            0.80).revenueHigh) := by
  have hraw : rawForecastRevenue [⟨2025, 100, 0⟩, ⟨2026, 0, 0⟩] "linear"
      = -100 := by
    norm_num [rawForecastRevenue, linearRegression, lrSlope, lrIntercept,
      lrDenom, List.zip, List.zipWith]
  have hvar : populationVariance [100, 0] = 2500 := by
    norm_num [populationVariance]
  have hsd : standardDeviation [100, 0] = 50 := by
    rw [standardDeviation, if_neg (by norm_num), hvar]
    rw [show ((2500 : ℚ) : ℝ) = 50 ^ 2 by push_cast; norm_num]
    exact Real.sqrt_sq (by norm_num)
  have hz : getZScore 0.80 = 1.28 := by norm_num [getZScore]
  have hmap : ([⟨2025, 100, 0⟩, ⟨2026, 0, 0⟩] : List YearPoint).map
      (fun d => d.revenue) = [100, 0] := rfl
  simp only [calculateForecast, hraw, hmap, hsd, hz]
  rw [max_eq_left (by push_cast; norm_num : (((-100 : ℚ) : ℝ)) ≤ 0)]
  push_cast
  norm_num

/-- C9 (amended) — the band is derived from `projected ± sd * z` with the
lower bound floored at `0`: `revenueHigh = projected + sd * z` and
`revenueLow = max 0 (projected - sd * z)`, where `sd` is the population
standard deviation of the revenue series and the z-score lookup maps
`0.80 ↦ 1.28`, `0.90 ↦ 1.645`, `0.95 ↦ 1.96` and everything else to
`1.645`. -/
theorem confidence_band_construction :
    (∀ (data : List YearPoint) (method : String) (confidence : ℚ),
      (calculateForecast data method confidence).revenueHigh
          = ((rawForecastRevenue data method : ℚ) : ℝ)
            + standardDeviation (data.map fun d => d.revenue)
              * ((getZScore confidence : ℚ) : ℝ)
      ∧ (calculateForecast data method confidence).revenueLow
          = max 0 (((rawForecastRevenue data method : ℚ) : ℝ)
            - standardDeviation (data.map fun d => d.revenue)
              * ((getZScore confidence : ℚ) : ℝ)))
    ∧ getZScore 0.80 = 1.28
    ∧ getZScore 0.90 = 1.645
    ∧ getZScore 0.95 = 1.96
    ∧ ∀ c : ℚ, c ≠ 0.80 → c ≠ 0.90 → c ≠ 0.95 → getZScore c = 1.645 := by
  refine ⟨fun data method confidence => ⟨rfl, rfl⟩,
    by norm_num [getZScore], by norm_num [getZScore], by norm_num [getZScore],
    ?_⟩
  intro c h1 h2 h3
  rw [getZScore, if_neg h1, if_neg h2, if_neg h3]

/-- Witness for C9: an unrecognized confidence level (`0.5`) falls back to
the z-score `1.645`. -/
theorem confidence_band_construction_witness : getZScore 0.5 = 1.645 :=
  confidence_band_construction.2.2.2.2 0.5 (by norm_num) (by norm_num)
    (by norm_num)

/-- C9 counterexample — the lower bound is floored: on
`[(2025, 100), (2026, 0)]` with the linear method at confidence `0.95` the
un-floored `projected - sd * z` is `-198`, but `revenueLow` is `0`. -/
theorem confidence_band_low_floored :
    (calculateForecast [⟨2025, 100, 0⟩, ⟨2026, 0, 0⟩] "linear"
        0.95).revenueLow
      ≠ ((rawForecastRevenue [⟨2025, 100, 0⟩, ⟨2026, 0, 0⟩] "linear" : ℚ) : ℝ)
        - standardDeviation
            (([⟨2025, 100, 0⟩, ⟨2026, 0, 0⟩] : List YearPoint).map
              fun d => d.revenue)
          * ((getZScore 0.95 : ℚ) : ℝ) := by
  have hraw : rawForecastRevenue [⟨2025, 100, 0⟩, ⟨2026, 0, 0⟩] "linear"
      = -100 := by
    norm_num [rawForecastRevenue, linearRegression, lrSlope, lrIntercept,
      lrDenom, List.zip, List.zipWith]
  have hvar : populationVariance [100, 0] = 2500 := by
    norm_num [populationVariance]
  have hsd : standardDeviation [100, 0] = 50 := by
    rw [standardDeviation, if_neg (by norm_num), hvar]
    rw [show ((2500 : ℚ) : ℝ) = 50 ^ 2 by push_cast; norm_num]
    exact Real.sqrt_sq (by norm_num)
  have hz : getZScore 0.95 = 1.96 := by norm_num [getZScore]
  have hmap : ([⟨2025, 100, 0⟩, ⟨2026, 0, 0⟩] : List YearPoint).map
      (fun d => d.revenue) = [100, 0] := rfl
  simp only [calculateForecast, hraw, hmap, hsd, hz]
  rw [max_eq_left (by push_cast; norm_num :
    (((-100 : ℚ) : ℝ) - 50 * ((1.96 : ℚ) : ℝ)) ≤ 0)]
  push_cast
  norm_num

/-! ## CSV import/export (`parseCSV`, `parseCSVLine`, `exportToCSV` in
`app.js`)

JavaScript strings are modelled as `List Char` so that splitting and
trimming are provable by structural induction.  `parseFloat` is modelled as
an exact prefix parser over `ℚ` (sign, digits, optional fraction, optional
exponent; `NaN` becomes `none`); the IEEE-double limits and the `Infinity`
literal are outside the idealisation.  JS number-to-string formatting
(shortest round-trip decimal) is modelled on nonnegative integer values,
which is where the round-trip theorems are stated. -/

/-- A JavaScript string, character by character. -/
abbrev Str := List Char

/-- The whitespace recognised by the model of `String.prototype.trim`
(space, tab, newline, carriage return; the exotic Unicode space classes are
not needed by any claim). -/
def isWs (c : Char) : Bool := c = ' ' ∨ c = '\t' ∨ c = '\n' ∨ c = '\r'

/-- Models `s.trim()`. -/
def jsTrim (s : Str) : Str :=
  ((s.dropWhile isWs).reverse.dropWhile isWs).reverse

/-- Models `s.split(sep)` for a single-character separator (keeps empty pieces, as
in JavaScript). -/
def splitOnChar (sep : Char) : Str → List Str
  | [] => [[]]
  | c :: rest =>
      let r := splitOnChar sep rest
      if c = sep then [] :: r else (c :: r.headD []) :: r.tail

/-- Models `hay.includes(needle)`. -/
def containsSub : Str → Str → Bool
  | [], needle => needle.isEmpty
  | c :: t, needle => needle.isPrefixOf (c :: t) || containsSub t needle

/-- Models `line.toLowerCase()`. -/
def toLowerStr (s : Str) : Str := s.map Char.toLower

/-- One step of the `for (let char of line)` loop of `parseCSVLine`:
state is `(result, current, inQuotes)`. -/
def csvLineStep (st : List Str × Str × Bool) (ch : Char) :
    List Str × Str × Bool :=
  let (result, current, inQuotes) := st
  if ch = '"' then (result, current, !inQuotes)
  else if ch = ',' ∧ inQuotes = false then (result ++ [current], [], inQuotes)
  else (result, current ++ [ch], inQuotes)

/-- Models `parseCSVLine(line)` from `app.js`: quote-aware comma split. -/
def parseCSVLine (line : Str) : List Str :=
  let st := line.foldl csvLineStep ([], [], false)
  st.1 ++ [st.2.1]

/-- The numeric value of a decimal digit character, when it is one. -/
def digitVal (c : Char) : Option ℕ :=
  if c.isDigit then some (c.toNat - 48) else none

/-- Longest digit prefix of a string, with the rest. -/
def takeDigits : Str → List ℕ × Str
  | [] => ([], [])
  | c :: t =>
      match digitVal c with
      | some d =>
          let r := takeDigits t
          (d :: r.1, r.2)
      | none => ([], c :: t)

/-- The natural number denoted by a digit list (most significant first). -/
def digitsVal (ds : List ℕ) : ℕ := ds.foldl (fun a d => 10 * a + d) 0

/-- Models `parseFloat(s)`: skip leading whitespace, optional sign, digits with an
optional fraction, an optional well-formed exponent; `none` when no numeric
prefix exists (JS `NaN`). -/
def jsParseFloat (s : Str) : Option ℚ :=
  let s1 := s.dropWhile isWs
  let signAndRest : ℚ × Str :=
    match s1 with
    | [] => (1, [])
    | c :: t => if c = '-' then (-1, t) else if c = '+' then (1, t)
                else (1, c :: t)
  let sign := signAndRest.1
  let ipartAndRest := takeDigits signAndRest.2
  let ipart := ipartAndRest.1
  let fpartAndRest : List ℕ × Str :=
    match ipartAndRest.2 with
    | [] => ([], [])
    | c :: t => if c = '.' then takeDigits t else ([], c :: t)
  let fpart := fpartAndRest.1
  if ipart.isEmpty ∧ fpart.isEmpty then none
  else
    let mant : ℚ :=
      (digitsVal ipart : ℚ) + (digitsVal fpart : ℚ) / (10 : ℚ) ^ fpart.length
    let exp : ℤ :=
      match fpartAndRest.2 with
      | [] => 0
      | c :: t =>
          if c = 'e' ∨ c = 'E' then
            let esignAndRest : ℤ × Str :=
              match t with
              | [] => (1, [])
              | d :: u => if d = '-' then (-1, u) else if d = '+' then (1, u)
                          else (1, d :: u)
            let eds := (takeDigits esignAndRest.2).1
            if eds.isEmpty then 0 else esignAndRest.1 * (digitsVal eds : ℤ)
          else 0
    some (sign * mant * (10 : ℚ) ^ exp)

/-- Models `s.replace(/[$,]/g, '')`. -/
def stripMoney (s : Str) : Str :=
  s.filter fun c => !(c = '$' ∨ c = ',')

/-- A parsed CSV transaction row. -/
structure CSVRecord where
  date : Str
  invoice_number : Str
  grower_name : Str
  product : Str
  quantity : ℚ
  amount : ℚ
  deriving Repr, DecidableEq

/-- The body of the row loop of `parseCSV` in `app.js`: trim, skip blanks,
tab- or quote-aware comma split, require at least 6 fields, default
unparsable numerics to 0, and require non-empty date/grower/product. -/
def parseCSVRow (rawLine : Str) : Option CSVRecord :=
  let line := jsTrim rawLine
  if line = [] then none
  else
    let values :=
      if line.contains '\t' then splitOnChar '\t' line else parseCSVLine line
    if 6 ≤ values.length then
      let entry : CSVRecord :=
        { date := jsTrim (values.getD 0 [])
          invoice_number := jsTrim (values.getD 1 [])
          grower_name := jsTrim (values.getD 2 [])
          product := jsTrim (values.getD 3 [])
          quantity := (jsParseFloat (values.getD 4 [])).getD 0
          amount := (jsParseFloat (stripMoney (values.getD 5 []))).getD 0 }
      if entry.date ≠ [] ∧ entry.grower_name ≠ [] ∧ entry.product ≠ []
      then some entry
      else none
    else none

/-- Models `parseCSV(text)` from `app.js`: trim, split on newlines, skip a detected
header row, then parse each row. -/
def parseCSV (text : Str) : List CSVRecord :=
  let lines := splitOnChar '\n' (jsTrim text)
  let firstLine := toLowerStr (lines.headD [])
  let start : ℕ :=
    if containsSub firstLine ('d' :: 'a' :: 't' :: 'e' :: [])
        || containsSub firstLine
            ('i' :: 'n' :: 'v' :: 'o' :: 'i' :: 'c' :: 'e' :: []) then 1
    else 0
  (lines.drop start).filterMap parseCSVRow

/-- Decimal digits of a natural number, most significant first (structural
recursion on a fuel bound so the definition evaluates in the kernel). -/
def natToCharsAux (fuel : ℕ) (n : ℕ) : Str :=
  match fuel with
  | 0 => []
  | fuel + 1 =>
      if n < 10 then [Char.ofNat (48 + n)]
      else natToCharsAux fuel (n / 10) ++ [Char.ofNat (48 + n % 10)]

/-- Decimal digits of a natural number (most significant first). -/
def natToChars (n : ℕ) : Str := natToCharsAux (n + 1) n

/-- JS number-to-string formatting, modelled on the nonnegative integers
(where the shortest round-trip decimal is just the digit string); other
values render as a placeholder and are outside the modelled domain. -/
def renderNum (q : ℚ) : Str :=
  if 0 ≤ q.num ∧ q.den = 1 then natToChars q.num.toNat else ['?']

/-- The fixed 6-column header `date,invoice_number,grower_name,product,quantity,amount`. -/
def csvHeader : Str :=
  ('d' :: 'a' :: 't' :: 'e' :: ',' :: 'i' :: 'n' :: 'v' :: 'o' :: 'i' :: 'c'
    :: 'e' :: '_' :: 'n' :: 'u' :: 'm' :: 'b' :: 'e' :: 'r' :: ',' :: 'g'
    :: 'r' :: 'o' :: 'w' :: 'e' :: 'r' :: '_' :: 'n' :: 'a' :: 'm' :: 'e'
    :: ',' :: 'p' :: 'r' :: 'o' :: 'd' :: 'u' :: 'c' :: 't' :: ',' :: 'q'
    :: 'u' :: 'a' :: 'n' :: 't' :: 'i' :: 't' :: 'y' :: ',' :: 'a' :: 'm'
    :: 'o' :: 'u' :: 'n' :: 't' :: [])

/-- Models `headers.map(h => d[h]).join(',')` for one record. -/
def recordToLine (r : CSVRecord) : Str :=
  List.intercalate (',' :: [])
    [r.date, r.invoice_number, r.grower_name, r.product,
     renderNum r.quantity, renderNum r.amount]

/-- Models `exportToCSV` from `app.js`, restricted to its pure core: header line
plus one line per record, joined by newlines. -/
def exportToCSV (data : List CSVRecord) : Str :=
  List.intercalate ('\n' :: []) (csvHeader :: data.map recordToLine)

/-- C8 — the CSV parser is total and only emits rows with non-empty
date/grower/product (rows failing the field checks are skipped), and a row
whose numeric fields are unparsable is kept with quantity and amount
defaulted to `0`. -/
theorem parseCSVRow_wellformed (line : Str) (e : CSVRecord)
    (h : parseCSVRow line = some e) :
    e.date ≠ [] ∧ e.grower_name ≠ [] ∧ e.product ≠ [] := by
  simp only [parseCSVRow] at h
  split_ifs at h <;> ((injection h with hh) <;> (subst hh) <;> assumption)

theorem parseCSV_row_safety :
    (∀ (text : Str) (e : CSVRecord), e ∈ parseCSV text →
      e.date ≠ [] ∧ e.grower_name ≠ [] ∧ e.product ≠ [])
    ∧ parseCSV ("2024-01-01,INV1,Smith Farms,Corn Seed,abc,n/a".data)
      = [{ date := "2024-01-01".data, invoice_number := "INV1".data,
           grower_name := "Smith Farms".data, product := "Corn Seed".data,
           quantity := 0, amount := 0 }] := by
  constructor
  · intro text e he
    simp only [parseCSV] at he
    rw [List.mem_filterMap] at he
    obtain ⟨line, _, hline⟩ := he
    exact parseCSVRow_wellformed line e hline
  · decide

/-- Witness for C8: the record parsed from the unparsable-numerics row has
non-empty date, grower and product. -/
theorem parseCSV_row_safety_witness :
    ({ date := "2024-01-01".data, invoice_number := "INV1".data,
        grower_name := "Smith Farms".data, product := "Corn Seed".data,
        quantity := 0, amount := 0 } : CSVRecord).date ≠ []
    ∧ ({ date := "2024-01-01".data, invoice_number := "INV1".data,
          grower_name := "Smith Farms".data, product := "Corn Seed".data,
          quantity := 0, amount := 0 } : CSVRecord).grower_name ≠ []
    ∧ ({ date := "2024-01-01".data, invoice_number := "INV1".data,
          grower_name := "Smith Farms".data, product := "Corn Seed".data,
          quantity := 0, amount := 0 } : CSVRecord).product ≠ [] :=
  parseCSV_row_safety.1 ("2024-01-01,INV1,Smith Farms,Corn Seed,abc,n/a".data)
    _ (by decide)

theorem digitChar_isDigit {d : ℕ} (h : d < 10) :
    (Char.ofNat (48 + d)).isDigit = true := by
  interval_cases d <;> decide

theorem digitVal_digitChar {d : ℕ} (h : d < 10) :
    digitVal (Char.ofNat (48 + d)) = some d := by
  interval_cases d <;> decide

theorem natToCharsAux_ne_nil {fuel n : ℕ} (h : n < fuel) :
    natToCharsAux fuel n ≠ [] := by
  induction fuel generalizing n with
  | zero => omega
  | succ fuel ih =>
      rw [natToCharsAux]
      by_cases h10 : n < 10
      · simp [h10]
      · rw [if_neg h10]
        simp

theorem natToCharsAux_digits {fuel n : ℕ} (h : n < fuel) :
    ∀ c ∈ natToCharsAux fuel n, c.isDigit = true := by
  induction fuel generalizing n with
  | zero => omega
  | succ fuel ih =>
      intro c hc
      rw [natToCharsAux] at hc
      by_cases h10 : n < 10
      · rw [if_pos h10] at hc
        simp at hc
        exact hc ▸ digitChar_isDigit h10
      · rw [if_neg h10] at hc
        rw [List.mem_append] at hc
        rcases hc with hc | hc
        · exact ih (by omega) c hc
        · simp at hc
          exact hc ▸ digitChar_isDigit (Nat.mod_lt n (by omega))

theorem digitsVal_append_singleton (ds : List ℕ) (d : ℕ) :
    digitsVal (ds ++ [d]) = 10 * digitsVal ds + d := by
  simp [digitsVal, List.foldl_append]

theorem natToCharsAux_val {fuel n : ℕ} (h : n < fuel) :
    digitsVal ((natToCharsAux fuel n).map fun c => c.toNat - 48) = n := by
  induction fuel generalizing n with
  | zero => omega
  | succ fuel ih =>
      rw [natToCharsAux]
      by_cases h10 : n < 10
      · rw [if_pos h10]
        have : (Char.ofNat (48 + n)).toNat - 48 = n := by
          interval_cases n <;> decide
        simp [digitsVal, this]
      · rw [if_neg h10]
        have hm : (Char.ofNat (48 + n % 10)).toNat - 48 = n % 10 := by
          have hlt : n % 10 < 10 := Nat.mod_lt n (by omega)
          interval_cases h : n % 10 <;> decide
        rw [List.map_append, List.map_singleton, hm,
          digitsVal_append_singleton, ih (by omega)]
        omega


theorem isDigit_not_isWs {c : Char} (h : c.isDigit = true) : isWs c = false := by
  rw [isWs, decide_eq_false_iff_not]
  rintro (rfl | rfl | rfl | rfl) <;> simp_all

theorem isDigit_ne {c c' : Char} (h : c.isDigit = true)
    (h' : c'.isDigit = false) : c ≠ c' := by
  rintro rfl
  rw [h] at h'
  exact Bool.noConfusion h'

theorem takeDigits_all_digits (l : List Char) (h : ∀ c ∈ l, c.isDigit = true) :
    takeDigits l = (l.map fun c => c.toNat - 48, []) := by
  induction l with
  | nil => rfl
  | cons c t ih =>
      have hc := h c (by simp)
      rw [takeDigits]
      rw [show digitVal c = some (c.toNat - 48) from by simp [digitVal, hc]]
      simp [ih fun x hx => h x (by simp [hx])]

theorem jsParseFloat_natToChars (n : ℕ) :
    jsParseFloat (natToChars n) = some (n : ℚ) := by
  have hlt : n < n + 1 := Nat.lt_succ_self n
  have hdig := natToCharsAux_digits hlt
  have hval := natToCharsAux_val hlt
  have hnil := natToCharsAux_ne_nil hlt
  rw [natToChars] at *
  obtain ⟨c, t, hct⟩ : ∃ c t, natToCharsAux (n + 1) n = c :: t := by
    cases hx : natToCharsAux (n + 1) n with
    | nil => exact absurd hx hnil
    | cons c t => exact ⟨c, t, rfl⟩
  rw [hct] at hdig hval ⊢
  have hc : c.isDigit = true := hdig c (by simp)
  rw [jsParseFloat]
  rw [show (c :: t).dropWhile isWs = c :: t from by
    rw [List.dropWhile_cons, isDigit_not_isWs hc]; simp]
  simp only
  rw [if_neg (isDigit_ne hc (by decide)), if_neg (isDigit_ne hc (by decide))]
  rw [takeDigits_all_digits (c :: t) hdig]
  simp only
  rw [if_neg (by simp)]
  simp only [List.map_cons, digitsVal, List.foldl_cons, Nat.mul_zero,
    Nat.zero_add] at hval
  simp [digitsVal, hval]


theorem jsTrim_eq_self_of_edges (l : Str)
    (h1 : (l.head?.all fun c => !isWs c) = true)
    (h2 : (l.getLast?.all fun c => !isWs c) = true) : jsTrim l = l := by
  cases l with
  | nil => rfl
  | cons c t =>
      have hc : isWs c = false := by simpa using h1
      rw [jsTrim]
      rw [show (c :: t).dropWhile isWs = c :: t from by
        rw [List.dropWhile_cons, hc]; simp]
      cases hrev : (c :: t).reverse with
      | nil => exact absurd hrev (by simp)
      | cons d r =>
          have hd : isWs d = false := by
            have hlast : (c :: t).getLast? = some d := by
              rw [← List.head?_reverse, hrev]; rfl
            simpa [hlast] using h2
          have hdrop : List.dropWhile isWs (d :: r) = d :: r := by
            rw [List.dropWhile_cons, hd]; simp
          rw [hdrop, ← hrev, List.reverse_reverse]

theorem jsTrim_eq_self_of_all (l : Str) (h : ∀ c ∈ l, isWs c = false) :
    jsTrim l = l := by
  apply jsTrim_eq_self_of_edges
  · cases hl : l.head? with
    | none => rfl
    | some c =>
        have : c ∈ l := by
          cases l with
          | nil => simp at hl
          | cons a t =>
              injection hl with hv
              exact hv ▸ (by simp)
        simp [h c this]
  · cases hl : l.getLast? with
    | none => rfl
    | some c =>
        have hne : l ≠ [] := by
          intro hnil; rw [hnil] at hl; simp at hl
        rw [List.getLast?_eq_getLast_of_ne_nil hne] at hl
        injection hl with hv
        have : c ∈ l := hv ▸ List.getLast_mem hne
        simp [h c this]

theorem splitOnChar_no_sep (sep : Char) (l : Str) (h : sep ∉ l) :
    splitOnChar sep l = [l] := by
  induction l with
  | nil => rfl
  | cons c t ih =>
      rw [splitOnChar]
      simp only [ih (fun hm => h (by simp [hm]))]
      rw [if_neg (by rintro rfl; exact h (by simp))]
      simp

theorem splitOnChar_append_cons (sep : Char) (l r : Str) (h : sep ∉ l) :
    splitOnChar sep (l ++ sep :: r) = l :: splitOnChar sep r := by
  induction l with
  | nil =>
      simp only [List.nil_append]
      rw [splitOnChar]
      simp
  | cons c t ih =>
      simp only [List.cons_append]
      rw [splitOnChar]
      simp only [ih (fun hm => h (by simp [hm]))]
      rw [if_neg (by rintro rfl; exact h (by simp))]
      simp

theorem splitOnChar_intercalate (sep : Char) :
    ∀ ls : List Str, ls ≠ [] → (∀ l ∈ ls, sep ∉ l) →
      splitOnChar sep (List.intercalate [sep] ls) = ls
  | [], h, _ => absurd rfl h
  | [l], _, hcl => by
      rw [List.intercalate]
      simp only [List.intersperse_single, List.flatten_cons, List.flatten_nil,
        List.append_nil]
      exact splitOnChar_no_sep sep l (hcl l (by simp))
  | l :: g :: ls, _, hcl => by
      have ih := splitOnChar_intercalate sep (g :: ls) (by simp)
        (fun x hx => hcl x (by simp [hx]))
      rw [List.intercalate] at ih ⊢
      simp only [List.intersperse_cons_cons, List.flatten_cons,
        List.singleton_append] at ih ⊢
      rw [splitOnChar_append_cons sep l _ (hcl l (by simp))]
      rw [ih]

theorem foldl_csvLineStep_clean (f : Str)
    (h : ∀ c ∈ f, c ≠ '"' ∧ c ≠ ',') :
    ∀ (res : List Str) (cur : Str),
    f.foldl csvLineStep (res, cur, false) = (res, cur ++ f, false) := by
  induction f with
  | nil => intro res cur; simp
  | cons c t ih =>
      intro res cur
      have hc := h c (by simp)
      rw [List.foldl_cons]
      rw [show csvLineStep (res, cur, false) c = (res, cur ++ [c], false) from by
        simp [csvLineStep, hc.1, hc.2]]
      rw [ih (fun x hx => h x (by simp [hx])) res (cur ++ [c])]
      simp

theorem foldl_csvLineStep_fields :
    ∀ (fs : List Str) (res : List Str), fs ≠ [] →
    (∀ f ∈ fs, ∀ c ∈ f, c ≠ '"' ∧ c ≠ ',') →
    List.foldl csvLineStep (res, [], false) (List.intercalate [','] fs)
      = (res ++ fs.dropLast, fs.getLast?.getD [], false)
  | [], _, h, _ => absurd rfl h
  | [f], res, _, hcl => by
      rw [List.intercalate]
      simp only [List.intersperse_single, List.flatten_cons, List.flatten_nil,
        List.append_nil]
      rw [foldl_csvLineStep_clean f (hcl f (by simp)) res []]
      simp
  | f :: g :: fs, res, _, hcl => by
      have ih := foldl_csvLineStep_fields (g :: fs) (res ++ [f]) (by simp)
        (fun x hx => hcl x (by simp [hx]))
      rw [List.intercalate] at ih ⊢
      simp only [List.intersperse_cons_cons, List.flatten_cons,
        List.singleton_append] at ih ⊢
      rw [List.foldl_append]
      rw [foldl_csvLineStep_clean f (hcl f (by simp)) res []]
      simp only [List.nil_append, List.foldl_cons]
      rw [show csvLineStep (res, f, false) ',' = (res ++ [f], [], false) from by
        simp [csvLineStep]]
      rw [ih]
      simp [List.append_assoc]

theorem parseCSVLine_intercalate (fs : List Str) (h : fs ≠ [])
    (hcl : ∀ f ∈ fs, ∀ c ∈ f, c ≠ '"' ∧ c ≠ ',') :
    parseCSVLine (List.intercalate [','] fs) = fs := by
  rw [parseCSVLine]
  simp only [foldl_csvLineStep_fields fs [] h hcl]
  rw [List.getLast?_eq_getLast_of_ne_nil h]
  simp [List.dropLast_append_getLast h]

/-- A string field survives the 6-column CSV round trip when it has no
separator-relevant characters, no surrounding whitespace, and no quotes. -/
def cleanField (s : Str) : Prop :=
  (s.head?.all fun c => !isWs c) = true
  ∧ (s.getLast?.all fun c => !isWs c) = true
  ∧ ',' ∉ s ∧ '"' ∉ s ∧ '\n' ∉ s ∧ '\t' ∉ s

instance (s : Str) : Decidable (cleanField s) := by
  unfold cleanField
  infer_instance

/-- A record in the domain where the CSV round trip is exact: clean string
fields, the required fields non-empty, and integer-valued nonnegative
numerics (where the JS number formatting is canonical). -/
def cleanRecord (r : CSVRecord) : Prop :=
  cleanField r.date ∧ cleanField r.invoice_number ∧ cleanField r.grower_name
  ∧ cleanField r.product
  ∧ r.date ≠ [] ∧ r.grower_name ≠ [] ∧ r.product ≠ []
  ∧ 0 ≤ r.quantity.num ∧ r.quantity.den = 1
  ∧ 0 ≤ r.amount.num ∧ r.amount.den = 1

instance (r : CSVRecord) : Decidable (cleanRecord r) := by
  unfold cleanRecord
  infer_instance

theorem natToChars_digits (n : ℕ) : ∀ c ∈ natToChars n, c.isDigit = true :=
  natToCharsAux_digits (Nat.lt_succ_self n)

theorem natToChars_ne_nil (n : ℕ) : natToChars n ≠ [] :=
  natToCharsAux_ne_nil (Nat.lt_succ_self n)

theorem renderNum_int (q : ℚ) (h1 : 0 ≤ q.num) (h2 : q.den = 1) :
    renderNum q = natToChars q.num.toNat := by
  rw [renderNum, if_pos ⟨h1, h2⟩]

theorem rat_of_int_parts (q : ℚ) (h1 : 0 ≤ q.num) (h2 : q.den = 1) :
    ((q.num.toNat : ℕ) : ℚ) = q := by
  have hcast : ((q.num.toNat : ℕ) : ℚ) = ((q.num : ℤ) : ℚ) := by
    rw [show ((q.num.toNat : ℕ) : ℚ) = ((q.num.toNat : ℤ) : ℚ) from by push_cast; ring]
    rw [Int.toNat_of_nonneg h1]
  rw [hcast]
  conv_rhs => rw [← Rat.num_div_den q]
  rw [h2]
  simp

theorem stripMoney_digits (l : Str) (h : ∀ c ∈ l, c.isDigit = true) :
    stripMoney l = l := by
  rw [stripMoney, List.filter_eq_self]
  intro c hc
  have hd := h c hc
  have h1 : c ≠ '$' := isDigit_ne hd (by decide)
  have h2 : c ≠ ',' := isDigit_ne hd (by decide)
  simp [h1, h2]

theorem mem_intercalate_sep (sep : Char) :
    ∀ (fs : List Str) (c : Char), c ∈ List.intercalate [sep] fs →
      c = sep ∨ ∃ f ∈ fs, c ∈ f
  | [], c, h => by simp [List.intercalate] at h
  | [f], c, h => by
      rw [List.intercalate] at h
      simp only [List.intersperse_single, List.flatten_cons, List.flatten_nil,
        List.append_nil] at h
      exact Or.inr ⟨f, by simp, h⟩
  | f :: g :: fs, c, h => by
      rw [List.intercalate] at h
      simp only [List.intersperse_cons_cons, List.flatten_cons,
        List.singleton_append] at h
      rw [List.mem_append] at h
      rcases h with h | h
      · exact Or.inr ⟨f, by simp, h⟩
      · rcases List.mem_cons.mp h with h | h
        · exact Or.inl h
        · rcases mem_intercalate_sep sep (g :: fs) c
              (by rw [List.intercalate]; exact h) with h | ⟨f2, hf2, hcf2⟩
          · exact Or.inl h
          · exact Or.inr ⟨f2, List.mem_cons_of_mem f hf2, hcf2⟩

theorem intercalate_six (sep : Char) (a b c d e f : Str) :
    List.intercalate [sep] [a, b, c, d, e, f]
      = a ++ sep :: (b ++ sep :: (c ++ sep :: (d ++ sep ::
          (e ++ sep :: f)))) := by
  rw [List.intercalate]
  simp [List.intersperse]

theorem mem_field_of_cleanField {s : Str} (h : cleanField s) :
    ∀ c ∈ s, c ≠ '"' ∧ c ≠ ',' := by
  intro c hc
  obtain ⟨-, -, hcm, hqt, -, -⟩ := h
  exact ⟨fun he => hqt (he ▸ hc), fun he => hcm (he ▸ hc)⟩

theorem mem_digits_clean {l : Str} (h : ∀ c ∈ l, c.isDigit = true) :
    ∀ c ∈ l, c ≠ '"' ∧ c ≠ ',' := by
  intro c hc
  exact ⟨isDigit_ne (h c hc) (by decide), isDigit_ne (h c hc) (by decide)⟩

theorem recordToLine_fields_clean (r : CSVRecord) (hr : cleanRecord r) :
    ∀ f ∈ [r.date, r.invoice_number, r.grower_name, r.product,
        renderNum r.quantity, renderNum r.amount], ∀ c ∈ f,
      c ≠ '"' ∧ c ≠ ',' := by
  obtain ⟨hd, hi, hg, hp, -, -, -, hqn, hqd, han, had⟩ := hr
  intro f hf
  simp only [List.mem_cons, List.not_mem_nil, or_false] at hf
  rcases hf with rfl | rfl | rfl | rfl | rfl | rfl
  · exact mem_field_of_cleanField hd
  · exact mem_field_of_cleanField hi
  · exact mem_field_of_cleanField hg
  · exact mem_field_of_cleanField hp
  · rw [renderNum_int _ hqn hqd]
    exact mem_digits_clean (natToChars_digits _)
  · rw [renderNum_int _ han had]
    exact mem_digits_clean (natToChars_digits _)

theorem recordToLine_no_ctrl (r : CSVRecord) (hr : cleanRecord r) :
    '\n' ∉ recordToLine r ∧ '\t' ∉ recordToLine r := by
  obtain ⟨hd, hi, hg, hp, -, -, -, hqn, hqd, han, had⟩ := hr
  have hfield : ∀ f ∈ [r.date, r.invoice_number, r.grower_name, r.product,
      renderNum r.quantity, renderNum r.amount], '\n' ∉ f ∧ '\t' ∉ f := by
    intro f hf
    simp only [List.mem_cons, List.not_mem_nil, or_false] at hf
    rcases hf with rfl | rfl | rfl | rfl | rfl | rfl
    · exact ⟨hd.2.2.2.2.1, hd.2.2.2.2.2⟩
    · exact ⟨hi.2.2.2.2.1, hi.2.2.2.2.2⟩
    · exact ⟨hg.2.2.2.2.1, hg.2.2.2.2.2⟩
    · exact ⟨hp.2.2.2.2.1, hp.2.2.2.2.2⟩
    · rw [renderNum_int _ hqn hqd]
      constructor <;> intro hcm <;>
        exact absurd (natToChars_digits _ _ hcm) (by decide)
    · rw [renderNum_int _ han had]
      constructor <;> intro hcm <;>
        exact absurd (natToChars_digits _ _ hcm) (by decide)
  constructor <;> intro hmem <;>
    rcases mem_intercalate_sep ',' _ _ hmem with h | ⟨f, hf, hcf⟩
  · exact absurd h (by decide)
  · exact (hfield f hf).1 hcf
  · exact absurd h (by decide)
  · exact (hfield f hf).2 hcf

theorem getLast?_cons_of_ne_nil (x : Char) (l : Str) (h : l ≠ []) :
    (x :: l).getLast? = l.getLast? := by
  cases l with
  | nil => exact absurd rfl h
  | cons y t => exact List.getLast?_cons_cons

theorem recordToLine_edges (r : CSVRecord) (hr : cleanRecord r) :
    recordToLine r ≠ []
    ∧ ((recordToLine r).head?.all fun c => !isWs c) = true
    ∧ ((recordToLine r).getLast?.all fun c => !isWs c) = true := by
  obtain ⟨hd, hi, hg, hp, hdne, hgne, hpne, hqn, hqd, han, had⟩ := hr
  have hline : recordToLine r = List.intercalate [',']
      [r.date, r.invoice_number, r.grower_name, r.product,
        renderNum r.quantity, renderNum r.amount] := rfl
  obtain ⟨c0, d0, hdate⟩ : ∃ c t, r.date = c :: t := by
    cases hx : r.date with
    | nil => exact absurd hx hdne
    | cons c t => exact ⟨c, t, rfl⟩
  have hhead : (recordToLine r).head? = some c0 := by
    rw [hline, intercalate_six, hdate]
    simp
  have hrana : renderNum r.amount = natToChars r.amount.num.toNat :=
    renderNum_int _ han had
  obtain ⟨ca, ta, hamt⟩ : ∃ c t, renderNum r.amount = c :: t := by
    cases hx : renderNum r.amount with
    | nil => exact absurd (hrana ▸ hx) (natToChars_ne_nil _)
    | cons c t => exact ⟨c, t, rfl⟩
  obtain ⟨z, hz, hzdig⟩ : ∃ z, (renderNum r.amount).getLast? = some z
      ∧ z.isDigit = true := by
    have hne : renderNum r.amount ≠ [] := by rw [hamt]; simp
    refine ⟨(renderNum r.amount).getLast hne,
      List.getLast?_eq_getLast_of_ne_nil hne, ?_⟩
    have hmem := List.getLast_mem hne
    have hmem2 : (renderNum r.amount).getLast hne
        ∈ natToChars r.amount.num.toNat := by
      rw [← hrana]; exact hmem
    exact natToChars_digits _ _ hmem2
  have hlast : (recordToLine r).getLast? = some z := by
    rw [hline, intercalate_six]
    rw [List.getLast?_append_of_ne_nil _ (by simp)]
    rw [getLast?_cons_of_ne_nil _ _ (by simp)]
    rw [List.getLast?_append_of_ne_nil _ (by simp)]
    rw [getLast?_cons_of_ne_nil _ _ (by simp)]
    rw [List.getLast?_append_of_ne_nil _ (by simp)]
    rw [getLast?_cons_of_ne_nil _ _ (by simp)]
    rw [List.getLast?_append_of_ne_nil _ (by simp)]
    rw [getLast?_cons_of_ne_nil _ _ (by simp)]
    rw [List.getLast?_append_of_ne_nil _ (by simp)]
    rw [getLast?_cons_of_ne_nil _ _ (by rw [hamt]; simp)]
    exact hz
  refine ⟨?_, ?_, ?_⟩
  · intro hnil
    rw [hnil] at hhead
    exact Option.noConfusion hhead
  · rw [hhead]
    have := hd.1
    rw [hdate] at this
    simpa using this
  · rw [hlast]
    simp [isDigit_not_isWs hzdig]

theorem parseCSVRow_recordToLine (r : CSVRecord) (hr : cleanRecord r) :
    parseCSVRow (recordToLine r) = some r := by
  obtain ⟨hd, hi, hg, hp, hdne, hgne, hpne, hqn, hqd, han, had⟩ := hr
  have hrcl : cleanRecord r :=
    ⟨hd, hi, hg, hp, hdne, hgne, hpne, hqn, hqd, han, had⟩
  have hline : recordToLine r = List.intercalate [',']
      [r.date, r.invoice_number, r.grower_name, r.product,
        renderNum r.quantity, renderNum r.amount] := rfl
  obtain ⟨hnem, hedgehead, hedgelast⟩ := recordToLine_edges r hrcl
  have htrim : jsTrim (recordToLine r) = recordToLine r :=
    jsTrim_eq_self_of_edges _ hedgehead hedgelast
  have hctrl := recordToLine_no_ctrl r hrcl
  have htabfalse : (recordToLine r).contains '\t' = false := by
    rw [Bool.eq_false_iff]
    intro hcon
    obtain ⟨a, ha, hbeq⟩ := List.contains_iff_exists_mem_beq.mp hcon
    rw [beq_iff_eq] at hbeq
    exact hctrl.2 (hbeq ▸ ha)
  have hparse : parseCSVLine (recordToLine r)
      = [r.date, r.invoice_number, r.grower_name, r.product,
          renderNum r.quantity, renderNum r.amount] := by
    rw [hline]
    exact parseCSVLine_intercalate _ (by simp)
      (recordToLine_fields_clean r hrcl)
  have htrd : jsTrim r.date = r.date :=
    jsTrim_eq_self_of_edges _ hd.1 hd.2.1
  have htri : jsTrim r.invoice_number = r.invoice_number :=
    jsTrim_eq_self_of_edges _ hi.1 hi.2.1
  have htrg : jsTrim r.grower_name = r.grower_name :=
    jsTrim_eq_self_of_edges _ hg.1 hg.2.1
  have htrp : jsTrim r.product = r.product :=
    jsTrim_eq_self_of_edges _ hp.1 hp.2.1
  have hqv : (jsParseFloat (renderNum r.quantity)).getD 0 = r.quantity := by
    rw [renderNum_int _ hqn hqd, jsParseFloat_natToChars]
    simpa using rat_of_int_parts r.quantity hqn hqd
  have hav : (jsParseFloat (stripMoney (renderNum r.amount))).getD 0
      = r.amount := by
    rw [renderNum_int _ han had, stripMoney_digits _ (natToChars_digits _),
      jsParseFloat_natToChars]
    simpa using rat_of_int_parts r.amount han had
  simp only [parseCSVRow, htrim]
  rw [if_neg hnem]
  rw [htabfalse, if_neg (by decide : ¬ false = true)]
  rw [hparse]
  rw [if_pos (by simp)]
  simp only [List.getD_cons_zero, List.getD_cons_succ]
  rw [htrd, htri, htrg, htrp, hqv, hav]
  rw [if_pos ⟨hdne, hgne, hpne⟩]

theorem intercalate_cons_cons (sep : Char) (a b : Str) (ls : List Str) :
    List.intercalate [sep] (a :: b :: ls)
      = a ++ sep :: List.intercalate [sep] (b :: ls) := by
  rw [List.intercalate, List.intercalate]
  simp [List.intersperse_cons_cons]

theorem head?_intercalate_cons (sep : Char) (l0 : Str) (ls : List Str)
    (h : l0 ≠ []) :
    (List.intercalate [sep] (l0 :: ls)).head? = l0.head? := by
  obtain ⟨c, t, rfl⟩ : ∃ c t, l0 = c :: t := by
    cases hx : l0 with
    | nil => exact absurd hx h
    | cons c t => exact ⟨c, t, rfl⟩
  cases ls with
  | nil =>
      rw [List.intercalate]
      simp
  | cons b bs =>
      rw [intercalate_cons_cons]
      simp

theorem lines_edges (sep : Char) :
    ∀ (ls : List Str) (l0 : Str),
    (∀ l ∈ l0 :: ls, l ≠ [] ∧ (l.getLast?.all fun c => !isWs c) = true) →
    ((List.intercalate [sep] (l0 :: ls)).getLast?.all fun c => !isWs c) = true
      ∧ List.intercalate [sep] (l0 :: ls) ≠ []
  | [], l0, h => by
      rw [List.intercalate]
      simp only [List.intersperse_single, List.flatten_cons, List.flatten_nil,
        List.append_nil]
      exact ⟨(h l0 (by simp)).2, (h l0 (by simp)).1⟩
  | l1 :: ls, l0, h => by
      have ih := lines_edges sep ls l1 (fun l hl => h l (by
        rcases List.mem_cons.mp hl with rfl | hl
        · simp
        · simp [hl]))
      rw [intercalate_cons_cons]
      have hlastrw : (l0 ++ sep :: List.intercalate [sep] (l1 :: ls)).getLast?
          = (List.intercalate [sep] (l1 :: ls)).getLast? := by
        rw [List.getLast?_append_of_ne_nil _ (by simp)]
        exact getLast?_cons_of_ne_nil _ _ ih.2
      refine ⟨by rw [hlastrw]; exact ih.1, by simp⟩

theorem filterMap_some_id {α : Type} (f : α → Option α) :
    ∀ l : List α, (∀ x ∈ l, f x = some x) → l.filterMap f = l
  | [], _ => rfl
  | x :: t, h => by
      rw [List.filterMap_cons, h x (by simp)]
      rw [filterMap_some_id f t (fun y hy => h y (by simp [hy]))]

/-- C4 (amended) — on records whose string fields are free of separator
characters, quotes and surrounding whitespace, with non-empty
date/grower/product and integer-valued nonnegative numerics, export followed
by parse is the identity. -/
theorem exportToCSV_parseCSV_roundtrip (data : List CSVRecord)
    (h : ∀ r ∈ data, cleanRecord r) :
    parseCSV (exportToCSV data) = data := by
  cases data with
  | nil => decide
  | cons r0 rs =>
      have hall : ∀ x ∈ (r0 :: rs).map recordToLine,
          x ≠ [] ∧ (x.getLast?.all fun c => !isWs c) = true := by
        intro x hx
        rw [List.mem_map] at hx
        obtain ⟨r, hr, rfl⟩ := hx
        obtain ⟨h1, h2, h3⟩ := recordToLine_edges r (h r hr)
        exact ⟨h1, h3⟩
      have hedgeconds : ∀ l ∈ csvHeader :: (r0 :: rs).map recordToLine,
          l ≠ [] ∧ (l.getLast?.all fun c => !isWs c) = true := by
        intro l hl
        rcases List.mem_cons.mp hl with rfl | hl
        · exact ⟨by decide, by decide⟩
        · exact hall l hl
      have hLedge := lines_edges '\n' ((r0 :: rs).map recordToLine) csvHeader
        hedgeconds
      have hhead : (List.intercalate ['\n']
          (csvHeader :: (r0 :: rs).map recordToLine)).head? = csvHeader.head? :=
        head?_intercalate_cons _ _ _ (by decide)
      have hheadall : ((List.intercalate ['\n']
          (csvHeader :: (r0 :: rs).map recordToLine)).head?.all
            fun c => !isWs c) = true := by
        rw [hhead]; decide
      have htrim := jsTrim_eq_self_of_edges _ hheadall hLedge.1
      have hnosep : ∀ l ∈ csvHeader :: (r0 :: rs).map recordToLine,
          '\n' ∉ l := by
        intro l hl
        rcases List.mem_cons.mp hl with rfl | hl
        · decide
        · rw [List.mem_map] at hl
          obtain ⟨r, hr, rfl⟩ := hl
          exact (recordToLine_no_ctrl r (h r hr)).1
      simp only [parseCSV, exportToCSV]
      simp only [htrim]
      simp only [splitOnChar_intercalate '\n' _ (by simp) hnosep]
      simp only [List.headD_cons]
      rw [if_pos (by decide)]
      simp only [List.drop_one, List.tail_cons]
      rw [List.filterMap_map]
      exact filterMap_some_id _ _
        (fun r hr => parseCSVRow_recordToLine r (h r hr))

/-- C4 counterexample — the exporter does not quote fields, so a grower name
containing a comma shifts every later column on re-parse: the record comes
back with grower `Baker`, product `Ann`, quantity `0` and amount `5` instead
of the original. -/
theorem csv_roundtrip_counterexample :
    parseCSV (exportToCSV
      [{ date := "2024-01-01".data, invoice_number := "7".data,
          grower_name := "Baker, Ann".data, product := "Corn Seed".data,
          quantity := 5, amount := 250 }])
      ≠ [{ date := "2024-01-01".data, invoice_number := "7".data,
            grower_name := "Baker, Ann".data, product := "Corn Seed".data,
            quantity := 5, amount := 250 }] := by decide

/-- Witness for C4 on a concrete clean record: export-then-parse is the
identity. -/
theorem exportToCSV_parseCSV_roundtrip_witness :
    parseCSV (exportToCSV
      [{ date := "2024-01-01".data, invoice_number := "INV7".data,
          grower_name := "Smith".data, product := "Corn Seed".data,
          quantity := 5, amount := 250 }])
      = [{ date := "2024-01-01".data, invoice_number := "INV7".data,
            grower_name := "Smith".data, product := "Corn Seed".data,
            quantity := 5, amount := 250 }] :=
  exportToCSV_parseCSV_roundtrip
    [{ date := "2024-01-01".data, invoice_number := "INV7".data,
        grower_name := "Smith".data, product := "Corn Seed".data,
        quantity := 5, amount := 250 }] (by decide)

end Pioneer
